import Mathlib

/-!
Verification of the aggregation-and-reporting core of the
jira-testcycle-daily-percentage repository.

The embedding covers:
* `src/jira_testcycle_tracker.py` — `JiraTestCycleTracker.get_test_cycles`,
  `JiraTestCycleTracker.calculate_completion_percentage`,
  `JiraTestCycleTracker.generate_reports`, and `main`;
* `src/main.py` — `get_test_cycle_data` and `calculate_completion_percentage`.

Machine reals of the Python source (`(completed / total) * 100` followed by
`round(x, 2)`) are modelled over `ℚ`; Python `round` ties to even, which
`roundHalfEven` reproduces.  Network calls are modelled by passing the remote
endpoint's response explicitly: a successful search response delivers one page
of the underlying item set, a failed one is `FetchResult.err`
(`requests.exceptions.RequestException`).
-/

namespace JiraTracker

/-- Rounding of a rational to the nearest integer, ties to even, as Python's
built-in `round` does. -/
def roundHalfEven (q : ℚ) : ℤ :=
  let f := ⌊q⌋
  let frac := q - f
  if frac < 1/2 then f
  else if 1/2 < frac then f + 1
  else if f % 2 = 0 then f else f + 1

/-- Embeds Python `round(x, 2)`: round to two decimal places. -/
def round2 (q : ℚ) : ℚ :=
  (roundHalfEven (q * 100) : ℚ) / 100

/-- The hard-coded completed-status set of
`JiraTestCycleTracker.calculate_completion_percentage`
(src/jira_testcycle_tracker.py line 137): `['done', 'passed']`. -/
def completedStatuses : List String := ["done", "passed"]

/-- Embeds Python `str.lower()`: lower-case every character.  This is
extensionally `String.toLower`, written over the character list so that it
reduces structurally. -/
def pyLower (s : String) : String :=
  String.mk (s.data.map Char.toLower)

/-- Embeds the completion check `status.lower() in ['done', 'passed']`
(src/jira_testcycle_tracker.py line 137). -/
def isCompleted (status : String) : Bool :=
  completedStatuses.contains (pyLower status)

/-- Helper for `incrStatus`: the entry whose key is `s` gets value `n + 1`,
every other entry is unchanged. -/
def bumpEntry (s : String) (n : Nat) (kv : String × Nat) : String × Nat :=
  if kv.1 = s then (kv.1, n + 1) else kv

/-- Embeds `status_counts[status] = status_counts.get(status, 0) + 1`
(src/jira_testcycle_tracker.py line 134) on an insertion-ordered dict,
modelled as an association list: an existing key keeps its position and its
count is incremented, a new key is appended with count 1. -/
def incrStatus (counts : List (String × Nat)) (s : String) : List (String × Nat) :=
  match counts.lookup s with
  | some n => counts.map (bumpEntry s n)
  | none => counts ++ [(s, 1)]

/-- One iteration of the `for case in test_cases` loop
(src/jira_testcycle_tracker.py lines 132-138): the accumulator is the pair
(status_counts, completed_cases). -/
def loopStep (acc : List (String × Nat) × Nat) (status : String) :
    List (String × Nat) × Nat :=
  (incrStatus acc.1 status, if isCompleted status then acc.2 + 1 else acc.2)

/-- The dict returned as `'status_breakdown'`: the fold of `incrStatus` over
the case statuses, starting from the empty dict. -/
def statusBreakdown (statuses : List String) : List (String × Nat) :=
  statuses.foldl incrStatus []

/-- The number of cases whose status passes the completion check. -/
def completedCount (statuses : List String) : Nat :=
  statuses.countP isCompleted

/-- The record returned by
`JiraTestCycleTracker.calculate_completion_percentage`
(src/jira_testcycle_tracker.py lines 119-148). -/
structure CompletionStat where
  cycle_key : String
  total_cases : Nat
  completed_cases : Nat
  completion_percentage : ℚ
  status_breakdown : List (String × Nat)
deriving DecidableEq

/-- Embeds the aggregation body of
`JiraTestCycleTracker.calculate_completion_percentage`
(src/jira_testcycle_tracker.py lines 116-148), applied to the statuses of the
already-fetched test cases: if the case list is empty the zero stat is
returned before any division; otherwise one pass counts per-status and
completed cases, and the percentage `(completed_cases / total_cases) * 100`
is rounded to two decimals. -/
def calculate_completion_percentage (cycle_key : String)
    (statuses : List String) : CompletionStat :=
  if statuses.length = 0 then
    ⟨cycle_key, 0, 0, 0, []⟩
  else
    let p := statuses.foldl loopStep ([], 0)
    ⟨cycle_key, statuses.length, p.2,
      round2 (((p.2 : ℚ) / (statuses.length : ℚ)) * 100), p.1⟩

/-! ## Association-list lemmas for the status dict -/

lemma lookup_cons_self (k : String) (v : Nat) (l : List (String × Nat)) :
    ((k, v) :: l).lookup k = some v := by
  simp [List.lookup]

lemma lookup_cons_ne (a k : String) (hne : a ≠ k) (v : Nat)
    (l : List (String × Nat)) : ((k, v) :: l).lookup a = l.lookup a := by
  have hb : (a == k) = false := beq_eq_false_iff_ne.mpr hne
  simp [List.lookup, hb]

lemma lookup_eq_none_iff (b : List (String × Nat)) (s : String) :
    b.lookup s = none ↔ s ∉ b.map Prod.fst := by
  induction b with
  | nil => simp
  | cons kv b ih =>
    by_cases h : s = kv.1
    · subst h; simp [List.lookup]
    · have hb : (s == kv.1) = false := beq_eq_false_iff_ne.mpr h
      simp [List.lookup, hb, ih, h]

lemma lookup_append_of_none (b c : List (String × Nat)) (t : String)
    (h : b.lookup t = none) : (b ++ c).lookup t = c.lookup t := by
  induction b with
  | nil => simp
  | cons kv b ih =>
    by_cases hk : t = kv.1
    · subst hk; rw [lookup_cons_self] at h; cases h
    · rw [lookup_cons_ne _ _ hk] at h
      rw [List.cons_append, lookup_cons_ne _ _ hk]
      exact ih h

lemma lookup_of_mem_of_nodup (b : List (String × Nat))
    (hnd : (b.map Prod.fst).Nodup) (kv : String × Nat) (hm : kv ∈ b) :
    b.lookup kv.1 = some kv.2 := by
  induction b with
  | nil => cases hm
  | cons hd b ih =>
    obtain ⟨k, v⟩ := hd
    rw [List.map_cons, List.nodup_cons] at hnd
    rcases List.mem_cons.mp hm with h | h
    · subst h; exact lookup_cons_self _ _ _
    · have hne : kv.1 ≠ k := by
        intro he
        exact hnd.1 (he ▸ List.mem_map.mpr ⟨kv, h, rfl⟩)
      rw [lookup_cons_ne _ _ hne]
      exact ih hnd.2 h

lemma map_bump_of_not_mem (b : List (String × Nat)) (s : String) (n : Nat)
    (h : s ∉ b.map Prod.fst) : b.map (bumpEntry s n) = b := by
  induction b with
  | nil => rfl
  | cons kv b ih =>
    simp only [List.map_cons, List.mem_cons] at h ⊢
    push_neg at h
    rw [ih h.2]
    simp [bumpEntry, Ne.symm h.1]

lemma keys_map_bump (b : List (String × Nat)) (s : String) (n : Nat) :
    (b.map (bumpEntry s n)).map Prod.fst = b.map Prod.fst := by
  induction b with
  | nil => rfl
  | cons kv b ih =>
    simp only [List.map_cons, ih]
    by_cases h : kv.1 = s <;> simp [bumpEntry, h]

lemma lookup_map_bump_ne (b : List (String × Nat)) (s : String) (n : Nat)
    (t : String) (h : t ≠ s) :
    (b.map (bumpEntry s n)).lookup t = b.lookup t := by
  induction b with
  | nil => rfl
  | cons hd b ih =>
    obtain ⟨k, v⟩ := hd
    rw [List.map_cons]
    by_cases hk : k = s
    · have hkt : t ≠ k := fun he => h (he.trans hk)
      have hbump : bumpEntry s n (k, v) = (k, n + 1) := by simp [bumpEntry, hk]
      rw [hbump, lookup_cons_ne _ _ hkt, lookup_cons_ne _ _ hkt]
      exact ih
    · have hbump : bumpEntry s n (k, v) = (k, v) := by simp [bumpEntry, hk]
      rw [hbump]
      by_cases ht : t = k
      · subst ht; rw [lookup_cons_self, lookup_cons_self]
      · rw [lookup_cons_ne _ _ ht, lookup_cons_ne _ _ ht]
        exact ih

lemma lookup_map_bump_self (b : List (String × Nat)) (s : String) (n : Nat)
    (h : b.lookup s = some n) :
    (b.map (bumpEntry s n)).lookup s = some (n + 1) := by
  induction b with
  | nil => cases h
  | cons hd b ih =>
    obtain ⟨k, v⟩ := hd
    rw [List.map_cons]
    by_cases hk : s = k
    · rw [hk]
      have hbump : bumpEntry k n (k, v) = (k, n + 1) := by simp [bumpEntry]
      rw [hbump, lookup_cons_self]
    · have hks : ¬ k = s := fun he => hk he.symm
      have hbump : bumpEntry s n (k, v) = (k, v) := by simp [bumpEntry, hks]
      rw [lookup_cons_ne _ _ hk] at h
      rw [hbump, lookup_cons_ne _ _ hk]
      exact ih h

lemma sum_filter_map_bump (p : String → Bool) (b : List (String × Nat))
    (s : String) (n : Nat) (hnd : (b.map Prod.fst).Nodup)
    (h : b.lookup s = some n) :
    (((b.map (bumpEntry s n)).filter fun kv : String × Nat => p kv.1).map
        Prod.snd).sum
      = ((b.filter fun kv : String × Nat => p kv.1).map Prod.snd).sum
        + (if p s then 1 else 0) := by
  induction b with
  | nil => cases h
  | cons hd b ih =>
    obtain ⟨k, v⟩ := hd
    rw [List.map_cons, List.nodup_cons] at hnd
    rw [List.map_cons]
    by_cases hk : s = k
    · rw [← hk] at hnd h ⊢
      rw [lookup_cons_self] at h
      injection h with h
      have hb : b.map (bumpEntry s n) = b :=
        map_bump_of_not_mem b s n hnd.1
      have hbump : bumpEntry s n (s, v) = (s, n + 1) := by simp [bumpEntry]
      rw [hbump, hb, h]
      by_cases hp : p s <;> simp [List.filter_cons, hp] <;> omega
    · have hks : ¬ k = s := fun he => hk he.symm
      have hbump : bumpEntry s n (k, v) = (k, v) := by simp [bumpEntry, hks]
      rw [lookup_cons_ne _ _ hk] at h
      rw [hbump]
      by_cases hp : p k <;>
        simp [List.filter_cons, hp, ih hnd.2 h] <;> omega

lemma sum_filter_append_single (p : String → Bool) (b : List (String × Nat))
    (s : String) :
    (((b ++ [(s, 1)]).filter fun kv : String × Nat => p kv.1).map
        Prod.snd).sum
      = ((b.filter fun kv : String × Nat => p kv.1).map Prod.snd).sum
        + (if p s then 1 else 0) := by
  by_cases hp : p s <;> simp [List.filter_append, List.filter_cons, hp]

/-! ## Loop invariant of the status-counting pass -/

lemma lookup_append_of_some (b c : List (String × Nat)) (t : String) (v : Nat)
    (h : b.lookup t = some v) : (b ++ c).lookup t = some v := by
  induction b with
  | nil => cases h
  | cons hd b ih =>
    obtain ⟨k, w⟩ := hd
    by_cases hk : t = k
    · subst hk
      rw [lookup_cons_self] at h
      rw [List.cons_append, lookup_cons_self]
      exact h
    · rw [lookup_cons_ne _ _ hk] at h
      rw [List.cons_append, lookup_cons_ne _ _ hk]
      exact ih h

/-- The invariant tying the status dict to the prefix `done` of the case list
already processed: keys are distinct, looking up a status yields its
multiplicity in `done` (absent when the multiplicity is zero), and for every
predicate on keys the sum of the matching counts equals the number of
statuses of `done` satisfying it. -/
def Represents (b : List (String × Nat)) (done : List String) : Prop :=
  (b.map Prod.fst).Nodup
  ∧ (∀ s, b.lookup s = if done.count s = 0 then none else some (done.count s))
  ∧ ∀ p : String → Bool,
      ((b.filter fun kv : String × Nat => p kv.1).map Prod.snd).sum
        = done.countP p

lemma represents_incr (b : List (String × Nat)) (done : List String)
    (s : String) (h : Represents b done) :
    Represents (incrStatus b s) (done ++ [s]) := by
  obtain ⟨hnd, hlook, hsum⟩ := h
  cases hcase : b.lookup s with
  | none =>
    have hcount : done.count s = 0 := by
      by_contra hc
      rw [hlook s, if_neg hc] at hcase
      cases hcase
    have hmem : s ∉ b.map Prod.fst := (lookup_eq_none_iff b s).mp hcase
    refine ⟨?_, ?_, ?_⟩
    · rw [incrStatus, hcase]
      simp [List.nodup_append, hmem, hnd]
    · intro t
      rw [incrStatus, hcase]
      by_cases ht : t = s
      · subst ht
        rw [lookup_append_of_none _ _ _ hcase, lookup_cons_self]
        simp [List.count_append, hcount]
      · cases hbt : b.lookup t with
        | none =>
          have hct : done.count t = 0 := by
            by_contra hc
            rw [hlook t, if_neg hc] at hbt
            cases hbt
          rw [lookup_append_of_none _ _ _ hbt, lookup_cons_ne _ _ ht]
          simp [List.count_append, List.count_cons, hct, ht]
        | some v =>
          rw [lookup_append_of_some _ _ _ _ hbt]
          rw [hlook t] at hbt
          have hct : ¬ done.count t = 0 := by
            intro hc
            rw [if_pos hc] at hbt
            cases hbt
          rw [if_neg hct] at hbt
          simp only [List.count_append, List.count_cons]
          have hts : ¬ (t = s) := ht
          have hst : ¬ (s = t) := fun he => ht he.symm
          simp [hts, hst, hct, ← hbt]
    · intro p
      rw [incrStatus, hcase, sum_filter_append_single, hsum p]
      simp [List.countP_append, List.countP_cons]
  | some n =>
    have hcn : ¬ done.count s = 0 := by
      intro hc
      rw [hlook s, if_pos hc] at hcase
      cases hcase
    have hn : done.count s = n := by
      rw [hlook s, if_neg hcn] at hcase
      injection hcase with hh
    refine ⟨?_, ?_, ?_⟩
    · rw [incrStatus, hcase, keys_map_bump]
      exact hnd
    · intro t
      rw [incrStatus, hcase]
      by_cases ht : t = s
      · subst ht
        rw [lookup_map_bump_self b t n hcase]
        simp [List.count_append, List.count_cons, hn]
      · rw [lookup_map_bump_ne _ _ _ _ ht, hlook t]
        simp [List.count_append, List.count_cons, ht]
    · intro p
      rw [incrStatus, hcase, sum_filter_map_bump p b s n hnd hcase, hsum p]
      simp [List.countP_append, List.countP_cons]

lemma represents_foldl (rest : List String) :
    ∀ (done : List String) (b : List (String × Nat)), Represents b done →
      Represents (rest.foldl incrStatus b) (done ++ rest) := by
  induction rest with
  | nil =>
    intro done b h
    simpa using h
  | cons s rest ih =>
    intro done b h
    rw [List.foldl_cons]
    have h2 := ih (done ++ [s]) (incrStatus b s) (represents_incr b done s h)
    have h3 : done ++ [s] ++ rest = done ++ s :: rest := by simp
    rw [h3] at h2
    exact h2

lemma represents_statusBreakdown (l : List String) :
    Represents (statusBreakdown l) l := by
  have h0 : Represents [] [] :=
    ⟨List.nodup_nil, fun s => by simp, fun p => by simp⟩
  simpa [statusBreakdown] using represents_foldl l [] [] h0

lemma foldl_loopStep (l : List String) :
    ∀ (b : List (String × Nat)) (n : Nat),
      l.foldl loopStep (b, n)
        = (l.foldl incrStatus b, n + l.countP isCompleted) := by
  induction l with
  | nil => intro b n; simp
  | cons s l ih =>
    intro b n
    rw [List.foldl_cons, List.foldl_cons]
    show l.foldl loopStep
        (incrStatus b s, if isCompleted s then n + 1 else n) = _
    rw [ih]
    by_cases hc : isCompleted s <;> simp [List.countP_cons, hc] <;> omega

/-- Evaluation of the aggregation on a non-empty case list in terms of the
closed counting functions. -/
lemma calculate_eq (k : String) (l : List String) (h : l ≠ []) :
    calculate_completion_percentage k l =
      ⟨k, l.length, completedCount l,
        round2 (((completedCount l : ℚ) / (l.length : ℚ)) * 100),
        statusBreakdown l⟩ := by
  have hlen : ¬ l.length = 0 := by simpa [List.length_eq_zero] using h
  simp only [calculate_completion_percentage, if_neg hlen, foldl_loopStep]
  simp [statusBreakdown, completedCount]

/-! ## Bounds for the rounding -/

lemma roundHalfEven_nonneg (q : ℚ) (h : 0 ≤ q) : 0 ≤ roundHalfEven q := by
  have hf : (0 : ℤ) ≤ ⌊q⌋ := Int.floor_nonneg.mpr h
  simp only [roundHalfEven]
  split_ifs <;> omega

lemma roundHalfEven_le (q : ℚ) (N : ℤ) (h : q ≤ (N : ℚ)) :
    roundHalfEven q ≤ N := by
  have hfl : ⌊q⌋ ≤ N := by
    have h2 := Int.floor_le_floor h
    simpa using h2
  have hplus : ¬ (q - ⌊q⌋ < 1/2) → ⌊q⌋ + 1 ≤ N := by
    intro h1
    push_neg at h1
    have hq : (⌊q⌋ : ℚ) < q := by linarith
    have hlt : (⌊q⌋ : ℚ) < (N : ℚ) := lt_of_lt_of_le hq h
    have hzn : ⌊q⌋ < N := by exact_mod_cast hlt
    omega
  simp only [roundHalfEven]
  split_ifs with h1 h2 h3
  · exact hfl
  · exact hplus h1
  · exact hfl
  · exact hplus h1

lemma round2_nonneg (q : ℚ) (h : 0 ≤ q) : 0 ≤ round2 q := by
  rw [round2]
  have h1 : (0 : ℤ) ≤ roundHalfEven (q * 100) :=
    roundHalfEven_nonneg _ (by positivity)
  have h2 : (0 : ℚ) ≤ (roundHalfEven (q * 100) : ℚ) := by exact_mod_cast h1
  linarith

lemma round2_le_100 (q : ℚ) (h : q ≤ 100) : round2 q ≤ 100 := by
  rw [round2]
  have h1 : roundHalfEven (q * 100) ≤ (10000 : ℤ) := by
    apply roundHalfEven_le
    push_cast
    linarith
  have h2 : (roundHalfEven (q * 100) : ℚ) ≤ 10000 := by exact_mod_cast h1
  linarith

/-! ## Issue Source Client and pipeline control flow -/

/-- Outcome of one remote search request: the endpoint answers with a list
of issues, or the request raises
(`requests.exceptions.RequestException`). -/
inductive FetchResult (α : Type) where
  | ok (items : List α)
  | err
deriving DecidableEq

/-- One page of the search endpoint over a fixed item set: the items from
offset `startAt`, at most `pageSize` of them.  The tracker sends neither
`startAt` nor `maxResults`, so its single request is served with
`startAt = 0` and the endpoint's page size. -/
def searchPage (items : List String) (pageSize startAt : Nat) : List String :=
  (items.drop startAt).take pageSize

/-- Embeds `JiraTestCycleTracker.get_test_cycles`
(src/jira_testcycle_tracker.py lines 56-90): one search request; on success
the single returned page is the result as-is, on a request exception the
error is logged and the empty list is returned. -/
def get_test_cycles (pageSize : Nat) (resp : FetchResult String) :
    List String :=
  match resp with
  | FetchResult.ok items => searchPage items pageSize 0
  | FetchResult.err => []

/-- Embeds `get_test_cycle_data` (src/main.py lines 33-42): one
`search_issues` call capped at `max_results`; a failure raises. -/
def get_test_cycle_data (max_results : Nat) (resp : FetchResult String) :
    Except Unit (List String) :=
  match resp with
  | FetchResult.ok items => Except.ok (items.take max_results)
  | FetchResult.err => Except.error ()

/-- Embeds the case fetch inside
`JiraTestCycleTracker.calculate_completion_percentage`
(src/jira_testcycle_tracker.py lines 102-116, 150-152): one search request
for the cycle's child cases; a request exception makes the function return
`None`, and the caller skips the cycle. -/
def fetch_linked_cases (pageSize : Nat) (resp : FetchResult String) :
    Option (List String) :=
  match resp with
  | FetchResult.ok items => some (searchPage items pageSize 0)
  | FetchResult.err => none

/-- `calculate_completion_percentage` with its own case fetch included. -/
def calculate_for_cycle (pageSize : Nat) (cycleKey : String)
    (resp : FetchResult String) : Option CompletionStat :=
  (fetch_linked_cases pageSize resp).map
    (calculate_completion_percentage cycleKey)

/-- The statistics rows collected by `JiraTestCycleTracker.generate_reports`
(src/jira_testcycle_tracker.py lines 165-177): one row per cycle, cycles
whose case fetch failed are dropped. -/
def reportRows (pageSize : Nat) (cycles : List String)
    (caseFetch : String → FetchResult String) :
    List (String × CompletionStat) :=
  cycles.filterMap fun c =>
    (calculate_for_cycle pageSize c (caseFetch c)).map fun st => (c, st)

/-- Embeds `JiraTestCycleTracker.generate_reports`
(src/jira_testcycle_tracker.py lines 154-192): `none` when nothing is
written (no cycles found, or no cycle produced statistics), otherwise the
report rows.  A listing failure arrives here already converted to `[]` by
`get_test_cycles`, so no exception escapes. -/
def generate_reports (pageSize : Nat) (listing : FetchResult String)
    (caseFetch : String → FetchResult String) :
    Option (List (String × CompletionStat)) :=
  let cycles := get_test_cycles pageSize listing
  if cycles.isEmpty then none
  else
    let stats := reportRows pageSize cycles caseFetch
    if stats.isEmpty then none else some stats

/-- Embeds `main` (src/jira_testcycle_tracker.py lines 257-266): an
exception from construction (missing configuration) or from report
generation exits 1, otherwise the process exits 0. -/
def tracker_main (configOk : Bool) (pageSize : Nat)
    (listing : FetchResult String)
    (caseFetch : String → FetchResult String) : Nat :=
  if configOk then
    let _report := generate_reports pageSize listing caseFetch
    0
  else 1

/-- The pagination loop of the spec (section 4.1), stated for comparison
with the single-request client of the source: request successive pages,
stop as soon as a page has fewer results than the page size, accumulating
all pages.  Fuel bounds the recursion; `items.length + 1` steps always
suffice. -/
def fetchLoop (items : List String) (pageSize : Nat) :
    Nat → Nat → List String → List String
  | 0, _, acc => acc
  | fuel + 1, startAt, acc =>
    let page := searchPage items pageSize startAt
    if page.length < pageSize then acc ++ page
    else fetchLoop items pageSize fuel (startAt + pageSize) (acc ++ page)

/-- The spec's paginated fetch over a fixed item set. -/
def fetchAllPages_spec (items : List String) (pageSize : Nat) : List String :=
  fetchLoop items pageSize (items.length + 1) 0 []

lemma fetchLoop_eq (items : List String) (pageSize : Nat)
    (hps : 0 < pageSize) :
    ∀ (fuel startAt : Nat) (acc : List String),
      items.length - startAt < fuel →
      fetchLoop items pageSize fuel startAt acc = acc ++ items.drop startAt := by
  intro fuel
  induction fuel with
  | zero =>
    intro startAt acc h
    exact absurd h (Nat.not_lt_zero _)
  | succ fuel ih =>
    intro startAt acc h
    have hdlen : (items.drop startAt).length = items.length - startAt :=
      List.length_drop _ _
    by_cases hlt : (items.drop startAt).length < pageSize
    · have htake : (items.drop startAt).take pageSize = items.drop startAt :=
        List.take_of_length_le (by omega)
      have hcp : ((items.drop startAt).take pageSize).length < pageSize := by
        rw [htake]; exact hlt
      simp only [fetchLoop, searchPage, if_pos hcp]
      rw [htake]
    · have hc : ¬ ((items.drop startAt).take pageSize).length < pageSize := by
        rw [List.length_take]
        omega
      have hge : pageSize ≤ items.length - startAt := by omega
      simp only [fetchLoop, searchPage, if_neg hc]
      rw [ih (startAt + pageSize) _ (by omega)]
      rw [List.append_assoc]
      congr 1
      have hdd : items.drop (startAt + pageSize)
          = (items.drop startAt).drop pageSize := by
        rw [List.drop_drop, Nat.add_comm startAt pageSize]
      rw [hdd]
      exact List.take_append_drop pageSize (items.drop startAt)

lemma fetchAllPages_spec_eq (items : List String) (pageSize : Nat)
    (hps : 0 < pageSize) : fetchAllPages_spec items pageSize = items := by
  rw [fetchAllPages_spec,
    fetchLoop_eq items pageSize hps _ 0 [] (by omega)]
  simp

/-! ## The claims -/

/-- C1: a cycle whose fetched case list is empty (`total_cases = 0`) gets
the zero statistic — percentage 0, empty breakdown — produced by the early
return that guards the division, so no division is reached. -/
theorem C1_empty_cases_zero_stat (k : String) (statuses : List String)
    (h : statuses.length = 0) :
    (calculate_completion_percentage k statuses).completion_percentage = 0
    ∧ (calculate_completion_percentage k statuses).status_breakdown = []
    ∧ (calculate_completion_percentage k statuses).total_cases = 0
    ∧ (calculate_completion_percentage k statuses).completed_cases = 0 := by
  simp [calculate_completion_percentage, h]

theorem C1_empty_cases_zero_stat_witness :
    ([] : List String).length = 0
    ∧ (calculate_completion_percentage "SPRINT-1" []).completion_percentage = 0
    ∧ (calculate_completion_percentage "SPRINT-1" []).status_breakdown = [] :=
  ⟨rfl, (C1_empty_cases_zero_stat "SPRINT-1" [] rfl).1,
    (C1_empty_cases_zero_stat "SPRINT-1" [] rfl).2.1⟩

/-- C2: on a non-empty case list the reported percentage is the stat's own
completed count divided by its total, times 100, rounded to two decimal
places. -/
theorem C2_percentage_formula (k : String) (statuses : List String)
    (h : statuses ≠ []) :
    (calculate_completion_percentage k statuses).completion_percentage
      = round2
          ((((calculate_completion_percentage k statuses).completed_cases : ℚ)
              / ((calculate_completion_percentage k statuses).total_cases : ℚ))
            * 100) := by
  rw [calculate_eq k statuses h]

theorem C2_percentage_formula_witness :
    (["Done", "Failed"] : List String) ≠ []
    ∧ (calculate_completion_percentage "K" ["Done", "Failed"]).completion_percentage
        = round2
            ((((calculate_completion_percentage "K" ["Done", "Failed"]).completed_cases : ℚ)
                / ((calculate_completion_percentage "K" ["Done", "Failed"]).total_cases : ℚ))
              * 100) :=
  ⟨by decide, C2_percentage_formula "K" ["Done", "Failed"] (by decide)⟩

/-- C3: for every case list, empty or not, the percentage lies between 0
and 100. -/
theorem C3_percentage_bounds (k : String) (statuses : List String) :
    0 ≤ (calculate_completion_percentage k statuses).completion_percentage
    ∧ (calculate_completion_percentage k statuses).completion_percentage
        ≤ 100 := by
  by_cases h : statuses = []
  · subst h
    constructor <;> norm_num [calculate_completion_percentage]
  · rw [calculate_eq k statuses h]
    have hlen : 0 < statuses.length := List.length_pos.mpr h
    have hle : completedCount statuses ≤ statuses.length :=
      List.countP_le_length _
    have hlenq : (0 : ℚ) < (statuses.length : ℚ) := by exact_mod_cast hlen
    have hcast : (completedCount statuses : ℚ) ≤ (statuses.length : ℚ) := by
      exact_mod_cast hle
    have hq0 : (0 : ℚ)
        ≤ (completedCount statuses : ℚ) / (statuses.length : ℚ) * 100 := by
      positivity
    have hq1 : (completedCount statuses : ℚ) / (statuses.length : ℚ) * 100
        ≤ 100 := by
      rw [div_mul_eq_mul_div, div_le_iff₀ hlenq]
      nlinarith
    exact ⟨round2_nonneg _ hq0, round2_le_100 _ hq1⟩

/-- C4: the counts in the breakdown always sum to the total number of
cases. -/
theorem C4_breakdown_sums_to_total (k : String) (statuses : List String) :
    ((calculate_completion_percentage k statuses).status_breakdown.map
        Prod.snd).sum
      = (calculate_completion_percentage k statuses).total_cases := by
  by_cases h : statuses = []
  · subst h
    simp [calculate_completion_percentage]
  · rw [calculate_eq k statuses h]
    have hrep := (represents_statusBreakdown statuses).2.2 (fun _ => true)
    simpa using hrep

/-- C5: completedness is decided on the lower-cased status against
`completedStatuses`, while the breakdown is keyed by the original casing:
two statuses equal up to case are counted identically for
`completed_cases` but land under two distinct breakdown keys. -/
theorem C5_casing (k s1 s2 : String) (hne : s1 ≠ s2)
    (hlow : pyLower s1 = pyLower s2) :
    isCompleted s1 = isCompleted s2
    ∧ (calculate_completion_percentage k [s1, s2]).completed_cases
        = (if isCompleted s1 then 2 else 0)
    ∧ (calculate_completion_percentage k [s1, s2]).status_breakdown
        = [(s1, 1), (s2, 1)] := by
  have hcomp : isCompleted s1 = isCompleted s2 := by
    rw [isCompleted, isCompleted, hlow]
  have hlist : ([s1, s2] : List String) ≠ [] := by simp
  rw [calculate_eq k [s1, s2] hlist]
  refine ⟨hcomp, ?_, ?_⟩
  · rw [completedCount, List.countP_cons, List.countP_cons, List.countP_nil,
      ← hcomp]
    cases hc : isCompleted s1 <;> simp [hc]
  · rw [statusBreakdown]
    simp only [List.foldl_cons, List.foldl_nil]
    have h1 : incrStatus [] s1 = [(s1, 1)] := rfl
    have hl : ([(s1, 1)] : List (String × Nat)).lookup s2 = none := by
      rw [lookup_cons_ne _ _ (Ne.symm hne)]
      rfl
    rw [h1, incrStatus, hl]
    rfl

theorem C5_casing_witness :
    ("Done" : String) ≠ "done"
    ∧ pyLower "Done" = pyLower "done"
    ∧ (isCompleted "Done" = isCompleted "done"
        ∧ (calculate_completion_percentage "K" ["Done", "done"]).completed_cases
            = (if isCompleted "Done" then 2 else 0)
        ∧ (calculate_completion_percentage "K" ["Done", "done"]).status_breakdown
            = [("Done", 1), ("done", 1)]) :=
  ⟨by decide, by decide,
    C5_casing "K" "Done" "done" (by decide) (by decide)⟩

/-- C6: the Sprint 12 scenario: 4 cases ["Done","Failed","Passed","Done"]
with the hard-coded completed set ["done","passed"] yield total 4,
completed 3, percentage 75, breakdown Done↦2, Failed↦1, Passed↦1. -/
theorem C6_sprint12_scenario :
    calculate_completion_percentage "Sprint 12"
        ["Done", "Failed", "Passed", "Done"]
      = ⟨"Sprint 12", 4, 3, 75,
          [("Done", 2), ("Failed", 1), ("Passed", 1)]⟩ := by
  have hp : (["Done", "Failed", "Passed", "Done"].foldl loopStep ([], 0))
      = ([("Done", 2), ("Failed", 1), ("Passed", 1)], 3) := by decide
  simp only [calculate_completion_percentage, hp]
  norm_num [round2, roundHalfEven]

/-- C9: the aggregation is permutation-invariant: total, completed count,
percentage, and the breakdown as a key-to-count mapping (Python dict
equality disregards insertion order, so the breakdown is compared by
lookup) agree across reorderings of the case list. -/
theorem C9_permutation_invariant (k : String) (l1 l2 : List String)
    (h : l1.Perm l2) :
    (calculate_completion_percentage k l1).total_cases
        = (calculate_completion_percentage k l2).total_cases
    ∧ (calculate_completion_percentage k l1).completed_cases
        = (calculate_completion_percentage k l2).completed_cases
    ∧ (calculate_completion_percentage k l1).completion_percentage
        = (calculate_completion_percentage k l2).completion_percentage
    ∧ ∀ s : String,
        (calculate_completion_percentage k l1).status_breakdown.lookup s
          = (calculate_completion_percentage k l2).status_breakdown.lookup s := by
  by_cases hnil : l1 = []
  · subst hnil
    have h2 : l2 = [] := h.symm.eq_nil
    subst h2
    simp
  · have hnil2 : l2 ≠ [] := by
      intro he
      subst he
      exact hnil h.eq_nil
    rw [calculate_eq k l1 hnil, calculate_eq k l2 hnil2]
    have hlen := h.length_eq
    have hcc : completedCount l1 = completedCount l2 := by
      rw [completedCount, completedCount]
      exact h.countP_eq isCompleted
    refine ⟨hlen, hcc, ?_, ?_⟩
    · rw [hcc, hlen]
    · intro s
      rw [(represents_statusBreakdown l1).2.1 s,
        (represents_statusBreakdown l2).2.1 s, h.count_eq s]

theorem C9_permutation_invariant_witness :
    (calculate_completion_percentage "K" ["Passed", "Failed"]).completion_percentage
        = (calculate_completion_percentage "K" ["Failed", "Passed"]).completion_percentage
    ∧ (calculate_completion_percentage "K" ["Passed", "Failed"]).status_breakdown.lookup "Passed"
        = (calculate_completion_percentage "K" ["Failed", "Passed"]).status_breakdown.lookup "Passed" :=
  ⟨(C9_permutation_invariant "K" ["Passed", "Failed"] ["Failed", "Passed"]
      (List.Perm.swap "Failed" "Passed" [])).2.2.1,
    (C9_permutation_invariant "K" ["Passed", "Failed"] ["Failed", "Passed"]
      (List.Perm.swap "Failed" "Passed" [])).2.2.2 "Passed"⟩

/-- C10: `completed_cases` is exactly the breakdown mass on the keys whose
lower-cased form is in the completed set (the predicate `isCompleted`);
consequently completed ≤ total, and every breakdown key appears with a
positive count and is the status of some case. -/
theorem C10_completed_from_breakdown (k : String) (statuses : List String) :
    (calculate_completion_percentage k statuses).completed_cases
      = (((calculate_completion_percentage k statuses).status_breakdown.filter
            fun kv : String × Nat => isCompleted kv.1).map Prod.snd).sum
    ∧ (calculate_completion_percentage k statuses).completed_cases
        ≤ (calculate_completion_percentage k statuses).total_cases
    ∧ ∀ kv : String × Nat,
        kv ∈ (calculate_completion_percentage k statuses).status_breakdown →
          1 ≤ kv.2 ∧ kv.1 ∈ statuses := by
  by_cases h : statuses = []
  · subst h
    simp [calculate_completion_percentage]
  · rw [calculate_eq k statuses h]
    obtain ⟨hnd, hlook, hsum⟩ := represents_statusBreakdown statuses
    refine ⟨(hsum isCompleted).symm, List.countP_le_length _, ?_⟩
    intro kv hm
    have hl := lookup_of_mem_of_nodup _ hnd kv hm
    rw [hlook kv.1] at hl
    by_cases hc : statuses.count kv.1 = 0
    · rw [if_pos hc] at hl
      cases hl
    · rw [if_neg hc] at hl
      injection hl with hl
      refine ⟨by omega, ?_⟩
      have hpos : 0 < statuses.count kv.1 := Nat.pos_of_ne_zero hc
      exact List.count_pos_iff.mp hpos

theorem C10_completed_from_breakdown_witness :
    (calculate_completion_percentage "K" ["Done", "Blocked"]).completed_cases
      = (((calculate_completion_percentage "K" ["Done", "Blocked"]).status_breakdown.filter
            fun kv : String × Nat => isCompleted kv.1).map Prod.snd).sum
    ∧ (1 ≤ (("Done", 1) : String × Nat).2
        ∧ (("Done", 1) : String × Nat).1 ∈ ["Done", "Blocked"]) :=
  ⟨(C10_completed_from_breakdown "K" ["Done", "Blocked"]).1,
    (C10_completed_from_breakdown "K" ["Done", "Blocked"]).2.2 ("Done", 1)
      (by decide)⟩

/-- C7 as stated is false: with page size 2 over the fixed item set
["a","b","c"], the single-request `get_test_cycles` does not return what an
all-items request would (the full set): it returns only the first page. -/
theorem C7_counterexample :
    get_test_cycles 2 (FetchResult.ok ["a", "b", "c"]) ≠ ["a", "b", "c"] := by
  decide

/-- C7 amended: neither fetch operation paginates — each issues exactly one
request and returns just the first page of the item set (`take pageSize`);
a loop following the spec's pagination rule would instead return the whole
item set. -/
theorem C7_amended_single_page (pageSize : Nat) (items : List String)
    (h : 0 < pageSize) :
    get_test_cycles pageSize (FetchResult.ok items) = items.take pageSize
    ∧ fetch_linked_cases pageSize (FetchResult.ok items)
        = some (items.take pageSize)
    ∧ get_test_cycle_data pageSize (FetchResult.ok items)
        = Except.ok (items.take pageSize)
    ∧ fetchAllPages_spec items pageSize = items := by
  refine ⟨?_, ?_, rfl, fetchAllPages_spec_eq items pageSize h⟩
  · simp [get_test_cycles, searchPage]
  · simp [fetch_linked_cases, searchPage]

theorem C7_amended_single_page_witness :
    (0 : Nat) < 2
    ∧ (get_test_cycles 2 (FetchResult.ok ["a", "b", "c"])
          = (["a", "b", "c"] : List String).take 2
        ∧ fetch_linked_cases 2 (FetchResult.ok ["a", "b", "c"])
            = some ((["a", "b", "c"] : List String).take 2)
        ∧ get_test_cycle_data 2 (FetchResult.ok ["a", "b", "c"])
            = Except.ok ((["a", "b", "c"] : List String).take 2)
        ∧ fetchAllPages_spec ["a", "b", "c"] 2 = ["a", "b", "c"]) :=
  ⟨by decide, C7_amended_single_page 2 ["a", "b", "c"] (by decide)⟩

/-- C8 as stated is false: with valid configuration, a failing initial
cycle listing still exits 0 — `get_test_cycles` swallows the request
exception into an empty list, so `main` never sees an exception and
`sys.exit(1)` is not reached. -/
theorem C8_counterexample :
    tracker_main true 50 FetchResult.err (fun _ => FetchResult.err) = 0 := rfl

/-- C8 amended: a failure of the initial cycle listing is not fatal — the
tracker logs it, produces no report, and the process exits 0; per-cycle
case-fetch failures are skipped and the failing cycle is excluded from the
report rows. -/
theorem C8_amended_listing_swallowed (pageSize : Nat)
    (caseFetch : String → FetchResult String) (cycles : List String)
    (c : String) (_hc : c ∈ cycles) (hf : caseFetch c = FetchResult.err) :
    tracker_main true pageSize FetchResult.err caseFetch = 0
    ∧ generate_reports pageSize FetchResult.err caseFetch = none
    ∧ ∀ r ∈ reportRows pageSize cycles caseFetch, r.1 ≠ c := by
  refine ⟨rfl, rfl, ?_⟩
  intro r hr he
  obtain ⟨c2, hc2, hmap⟩ := List.mem_filterMap.mp hr
  obtain ⟨st, hst, hre⟩ := Option.map_eq_some'.mp hmap
  have hcc : c2 = c := by rw [← he, ← hre]
  rw [hcc, hf] at hst
  simp [calculate_for_cycle, fetch_linked_cases] at hst

theorem C8_amended_listing_swallowed_witness :
    tracker_main true 50 FetchResult.err
        (fun s => if s = "C-1" then FetchResult.err else FetchResult.ok []) = 0
    ∧ ∀ r ∈ reportRows 50 ["C-1", "C-2"]
          (fun s => if s = "C-1" then FetchResult.err else FetchResult.ok []),
        r.1 ≠ "C-1" :=
  ⟨(C8_amended_listing_swallowed 50
      (fun s => if s = "C-1" then FetchResult.err else FetchResult.ok [])
      ["C-1", "C-2"] "C-1" (by decide) (by simp)).1,
    (C8_amended_listing_swallowed 50
      (fun s => if s = "C-1" then FetchResult.err else FetchResult.ok [])
      ["C-1", "C-2"] "C-1" (by decide) (by simp)).2.2⟩

end JiraTracker
